import Mathlib

/-!
Shallow embedding of the video-organizer web application (src/app.py) and
verification of its specification claims.

Conventions:
* Python strings are modelled as Lean `String` / `List Char`.
* Network and filesystem effects are modelled by explicit environment
  parameters (oracles): an HTTP request either raises an exception or
  returns a status code together with observable payload data.
* All definitions are executable.
-/

namespace VidOrg

/-! ### Characters and the YouTube id character class `[a-zA-Z0-9_-]` -/

def isIdChar (c : Char) : Bool := c.isAlphanum || c == '_' || c == '-'

/-- Bool test that a candidate id is exactly 11 characters from the id class. -/
def goodIdB (id : List Char) : Bool := id.length == 11 && id.all isIdChar

/-! ### The regular-expression patterns of `extract_video_id` (src/app.py:112-122)

Pattern 1 is the alternation
`(?:youtube\.com\/watch\?v=|youtu\.be\/|youtube\.com\/embed\/)([a-zA-Z0-9_-]{11})`,
pattern 2 is `youtube\.com\/watch\?.*v=([a-zA-Z0-9_-]{11})`.
`re.search` scans for the leftmost position at which the pattern matches;
`.` does not match a newline, and the `{11}` repetition of the character
class consumes exactly the next 11 characters. -/

def watchPat : List Char := "youtube.com/watch?v=".toList
def shortPat : List Char := "youtu.be/".toList
def embedPat : List Char := "youtube.com/embed/".toList
def watchQPat : List Char := "youtube.com/watch?".toList

/-- Strip a literal pattern from the front of the input, if it is there. -/
def stripPre (p l : List Char) : Option (List Char) :=
  if p.isPrefixOf l then some (l.drop p.length) else none

/-- Match `[a-zA-Z0-9_-]{11}` at the front of the input, returning the
11 captured characters. -/
def takeId (l : List Char) : Option (List Char) :=
  if goodIdB (l.take 11) then some (l.take 11) else none

/-- Match pattern 1 at the current position (one alternative can match). -/
def matchAt1 (l : List Char) : Option (List Char) :=
  match stripPre watchPat l with
  | some r => takeId r
  | none =>
    match stripPre shortPat l with
    | some r => takeId r
    | none =>
      match stripPre embedPat l with
      | some r => takeId r
      | none => none

/-- Greedy `.*v=([a-zA-Z0-9_-]{11})`: the rightmost full match of
`v=` followed by 11 id characters, with no newline before it (a `.` never
matches a newline). -/
def vMatch (l : List Char) : Option (List Char) :=
  match stripPre ['v', '='] l with
  | some r => takeId r
  | none => none

def lastV : List Char → Option (List Char)
  | [] => none
  | c :: t =>
    if c = '\n' then none
    else
      match lastV t with
      | some r => some r
      | none => vMatch (c :: t)

/-- Match pattern 2 at the current position. -/
def matchAt2 (l : List Char) : Option (List Char) :=
  match stripPre watchQPat l with
  | some r => lastV r
  | none => none

/-- Leftmost-position search, as performed by `re.search`. -/
def searchL (m : List Char → Option (List Char)) : List Char → Option (List Char)
  | [] => m []
  | c :: t =>
    match m (c :: t) with
    | some r => some r
    | none => searchL m t

/-- Embedding of `extract_video_id` (src/app.py:112-122): try pattern 1 over
the whole string, then pattern 2. -/
def extractL (l : List Char) : Option (List Char) :=
  match searchL matchAt1 l with
  | some r => some r
  | none => searchL matchAt2 l

def extract_video_id (s : String) : Option String :=
  (extractL s.toList).map String.mk

/-! ### Spec-side description of the recognized URL shapes

A string is of a recognized shape when it contains one of the literal
markers followed by an 11-character identifier (watch / short / embed), or
contains `youtube.com/watch?` followed, with no intervening newline, by
`v=` and an 11-character identifier. -/

def SpecShape (l : List Char) : Prop :=
  (∃ p id r, goodIdB id = true ∧
      (l = p ++ (watchPat ++ (id ++ r)) ∨
       l = p ++ (shortPat ++ (id ++ r)) ∨
       l = p ++ (embedPat ++ (id ++ r)))) ∨
  (∃ p g id r, goodIdB id = true ∧ '\n' ∉ g ∧
      l = p ++ (watchQPat ++ (g ++ ('v' :: '=' :: (id ++ r)))))

/-! ### HTTP environment for `get_youtube_title` (src/app.py:124-134)

A request either raises (timeout, connection error, JSON decode error, all
caught by the bare `except`) or returns a status code and, for the oEmbed
endpoint, an optional `title` field of the decoded JSON body. -/

inductive HttpOut where
  | exn : HttpOut
  | resp (status : Nat) (jsonTitle : Option String) : HttpOut
deriving DecidableEq

/-- Embedding of `get_youtube_title`: on status 200 return the `title`
field of the JSON body with default YouTube Video, on any other status or
any exception return the fixed fallback. -/
def get_youtube_title (o : HttpOut) : String :=
  match o with
  | .exn => "YouTube Video"
  | .resp st t => if st = 200 then t.getD "YouTube Video" else "YouTube Video"

/-! ### Thumbnail candidate loop of `extract_youtube_thumbnail` (src/app.py:136-169)

Per candidate, `requests.get` either raises (`fetched = none`) or returns a
status code and payload size; if the status/size test passes, the
decode/save steps may still raise (`decodeOk = false`).  Any exception in
the per-candidate `try` block makes the loop `continue` with the next
candidate. -/

structure Attempt where
  fetched : Option (Nat × Nat)
  decodeOk : Bool

/-- A candidate succeeds (the function returns from inside the loop) iff
its fetch returned status 200 with a payload of more than 1000 bytes and
the image decode/save did not raise. -/
def accepted (env : Nat → Attempt) (i : Nat) : Bool :=
  match (env i).fetched with
  | some (st, sz) => st == 200 && decide (1000 < sz) && (env i).decodeOk
  | none => false

/-- The fixed candidate URL list, in source order (src/app.py:143-149). -/
def thumbnail_urls (video_id : String) : List String := [
  "https://img.youtube.com/vi/" ++ video_id ++ "/maxresdefault.jpg",
  "https://img.youtube.com/vi/" ++ video_id ++ "/sddefault.jpg",
  "https://img.youtube.com/vi/" ++ video_id ++ "/hqdefault.jpg",
  "https://img.youtube.com/vi/" ++ video_id ++ "/mqdefault.jpg",
  "https://img.youtube.com/vi/" ++ video_id ++ "/default.jpg"]

/-- First index of the candidate list (scanned left to right) whose
attempt succeeds. -/
def scanIdx (p : Nat → Bool) : List Nat → Option Nat
  | [] => none
  | i :: rest => if p i then some i else scanIdx p rest

def thumbLoop (env : Nat → Attempt) (video_id : String) : Option Nat :=
  scanIdx (accepted env) (List.range (thumbnail_urls video_id).length)

/-- Embedding of `extract_youtube_thumbnail`: result is
(thumbnail filename or none, title or none).  `ts` is the
`datetime.now().strftime` timestamp. -/
def extract_youtube_thumbnail (tEnv : HttpOut) (env : Nat → Attempt)
    (ts : String) (youtube_url : String) : Option String × Option String :=
  match extract_video_id youtube_url with
  | none => (none, none)
  | some video_id =>
    let video_title := get_youtube_title tEnv
    match thumbLoop env video_id with
    | some _ => (some ("yt_" ++ video_id ++ "_" ++ ts ++ ".jpg"), some video_title)
    | none => (none, some video_title)

/-! ### The Video model and the two add operations -/

/-- Row of the `Video` table, as populated by the add operations
(src/app.py:93-103); `none` models SQL NULL. -/
structure VideoRow where
  title : String
  thumbnail_path : String
  video_path : Option String
  youtube_url : Option String
  is_youtube : Bool
  category_id : Int
  user_id : Int
deriving DecidableEq

/-- Python truthiness of an optional string (absent and empty are falsy). -/
def optTruthy (o : Option String) : Bool :=
  match o with
  | none => false
  | some s => !(s == "")

/-- Python `a or b` on strings. -/
def pyOrStr (a b : String) : String := if a = "" then b else a

/-- Python `str.strip()`: drop whitespace from both ends. -/
def pyStrip (s : String) : String :=
  String.mk (((s.toList.dropWhile Char.isWhitespace).reverse.dropWhile
    Char.isWhitespace).reverse)

/-- Embedding of the `add_youtube` handler body (src/app.py:314-333): the
returned row is the one committed, `none` means no row is recorded.
`catVal` stands for `int(category_id)` (the claims assume a valid integer
field), `uid` for `current_user.id`. -/
def add_youtube (youtube_url category_id : Option String) (catVal uid : Int)
    (tEnv : HttpOut) (env : Nat → Attempt) (ts : String) : Option VideoRow :=
  match youtube_url, category_id with
  | some u, some c =>
    if u ≠ "" ∧ c ≠ "" then
      let r := extract_youtube_thumbnail tEnv env ts u
      if optTruthy r.1 || optTruthy r.2 then
        some { title := pyOrStr (r.2.getD "") "YouTube Video",
               thumbnail_path := r.1.getD "",
               video_path := none,
               youtube_url := some u,
               is_youtube := true,
               category_id := catVal,
               user_id := uid }
      else none
    else none
  | _, _ => none

/-! ### Upload path: `allowed_file` and `upload_video` -/

/-- Characters after the last dot, as computed by `rsplit('.', 1)[1]`. -/
def extChars (l : List Char) : List Char :=
  (l.reverse.takeWhile (fun c => !(c == '.'))).reverse

def lowerStr (l : List Char) : List Char := l.map Char.toLower

def allowedExts : List (List Char) :=
  ["mp4".toList, "avi".toList, "mov".toList, "mkv".toList, "webm".toList, "flv".toList]

/-- Embedding of `allowed_file` (src/app.py:109-110). -/
def allowed_file (filename : String) : Bool :=
  filename.toList.contains '.' && allowedExts.contains (lowerStr (extChars filename.toList))

/-! ### Frame selection in `generate_video_thumbnail` (src/app.py:171-195) -/

/-- Environment of one `cv2.VideoCapture`: whether it opens, the raw FPS
and frame-count properties (doubles, modelled as rationals), and whether
`cap.read()` at a given frame position succeeds. -/
structure CapEnv where
  opened : Bool
  fpsRaw : ℚ
  frameCountRaw : ℚ
  readOk : Int → Bool

/-- Python `int()` on a float/rational: truncation toward zero
(`Int.tdiv` is T-division). -/
def pyInt (q : ℚ) : Int := q.num.tdiv (q.den : Int)

/-- Python `a or b` for floats: `a` is falsy exactly when it is 0.0. -/
def pyOrQ (a b : ℚ) : ℚ := if a = 0 then b else a

def fpsUsed (cap : CapEnv) : ℚ := pyOrQ cap.fpsRaw 25

def total_frames (cap : CapEnv) : Int := pyInt cap.frameCountRaw

/-- The selected frame index:
`min(int(fps * 1), total_frames // 2 if total_frames > 0 else 0)`. -/
def frame_no (cap : CapEnv) : Int :=
  min (pyInt (fpsUsed cap * 1))
      (if 0 < total_frames cap then (total_frames cap).fdiv 2 else 0)

/-- Embedding of `generate_video_thumbnail`. -/
def generate_video_thumbnail (cap : CapEnv) (ts : String) : Option String :=
  if !cap.opened then none
  else if cap.readOk (frame_no cap) then some ("video_" ++ ts ++ ".jpg")
  else none

/-- Form/environment of one `upload_video` request (src/app.py:335-364). -/
structure UploadReq where
  hasFileField : Bool
  fileName : String
  categoryField : Option String
  titleField : Option String

/-- Embedding of the `upload_video` handler body; `sf` models
`werkzeug.secure_filename`, `ts` the timestamp.  The returned row is the
one committed, `none` means no row is recorded. -/
def upload_video (req : UploadReq) (sf : String → String) (cap : CapEnv)
    (ts : String) (catVal uid : Int) : Option VideoRow :=
  if !req.hasFileField then none
  else if req.fileName ≠ "" ∧ allowed_file req.fileName = true ∧ optTruthy req.categoryField = true then
    let fname := ts ++ "_" ++ sf req.fileName
    let thumb := generate_video_thumbnail cap ts
    let vtitle := pyStrip (req.titleField.getD "Untitled Video")
    some { title := pyOrStr vtitle fname,
           thumbnail_path := thumb.getD "",
           video_path := some fname,
           youtube_url := none,
           is_youtube := false,
           category_id := catVal,
           user_id := uid }
  else none

/-! ### URL parsing, `is_safe_url` and the login redirect (src/app.py:44-50, 252-256)

`urlparse`/`urljoin` are modelled for the parts `is_safe_url` observes:
scheme and netloc.  Path resolution of relative references is not needed
(the redirect target is the raw `next` string; only scheme and netloc of
the joined URL are inspected). -/

structure UrlParts where
  scheme : String
  netloc : String
  rest : String
deriving DecidableEq

def schemeOkChar (c : Char) : Bool := c.isAlphanum || c == '+' || c == '-' || c == '.'

/-- Split at the first colon, if any. -/
def splitColon : List Char → Option (List Char × List Char)
  | [] => none
  | ':' :: t => some ([], t)
  | c :: t => (splitColon t).map (fun p => (c :: p.1, p.2))

def netDelim (c : Char) : Bool := c ≠ '/' && c ≠ '?' && c ≠ '#'

/-- Extract the netloc when the remainder starts with two slashes. -/
def netSplit (l : List Char) : List Char × List Char :=
  match l with
  | '/' :: '/' :: r => (r.takeWhile netDelim, r.dropWhile netDelim)
  | _ => ([], l)

/-- Simplified `urlsplit`: a scheme is recognized when the part before the
first colon is nonempty, starts with a letter and consists of scheme
characters (it is lowercased); the netloc follows a leading double
slash. -/
def urlsplitL (l : List Char) : UrlParts :=
  let sr : List Char × List Char :=
    match splitColon l with
    | some (a, b) =>
      if (!a.isEmpty) && (a.headD ' ').isAlpha && a.all schemeOkChar
      then (a.map Char.toLower, b) else ([], l)
    | none => ([], l)
  let nr := netSplit sr.2
  ⟨String.mk sr.1, String.mk nr.1, String.mk nr.2⟩

def urlsplit (s : String) : UrlParts := urlsplitL s.toList

/-- Scheme-and-netloc part of `urljoin(base, target)`: an absolute target
with a different scheme wins outright; a target with the same scheme or a
protocol-relative target keeps its own netloc; a relative target inherits
scheme and netloc from the base. -/
def urljoinParts (base target : String) : UrlParts :=
  let b := urlsplit base
  let t := urlsplit target
  if t.scheme ≠ "" then
    if t.scheme = b.scheme then
      (if t.netloc ≠ "" then t else { t with netloc := b.netloc })
    else t
  else if t.netloc ≠ "" then { t with scheme := b.scheme }
  else { scheme := b.scheme, netloc := b.netloc, rest := t.rest }

/-- Embedding of `is_safe_url` (src/app.py:44-50). -/
def is_safe_url (host_url target : String) : Bool :=
  if target = "" then false
  else
    let ref := urlsplit host_url
    let test := urljoinParts host_url target
    (test.scheme == "http" || test.scheme == "https") && ref.netloc == test.netloc

inductive RedirectTarget where
  | toNext (s : String)
  | toIndex
deriving DecidableEq

/-- The redirect chosen after a successful login (src/app.py:252-256). -/
def login_redirect (host_url : String) (nxt : Option String) : RedirectTarget :=
  match nxt with
  | some n => if n ≠ "" ∧ is_safe_url host_url n = true then .toNext n else .toIndex
  | none => .toIndex

/-! ### `delete_video` (src/app.py:372-398) -/

structure VideoRec where
  vid : Int
  uid : Int
  is_youtube : Bool
  thumbnail_path : String
  video_path : Option String
deriving DecidableEq

structure AppState where
  videos : List VideoRec
  thumbFiles : List String
  uploadFiles : List String
deriving DecidableEq

/-- Best-effort file removal: checked with `os.path.exists`, then
`os.remove` inside a `try` whose failure (modelled by `failRemove`) is
swallowed. -/
def tryRemove (files : List String) (name : String) (failRemove : Bool) : List String :=
  if name ∈ files then (if failRemove then files else files.erase name) else files

def videoKeyMatch (videoId userId : Int) (w : VideoRec) : Bool :=
  w.vid == videoId && w.uid == userId

/-- The `first_or_404` query: the video with this id owned by this user. -/
def findVideo (st : AppState) (videoId userId : Int) : Option VideoRec :=
  st.videos.find? (videoKeyMatch videoId userId)

inductive DeleteOutcome where
  | ok
  | notFound
deriving DecidableEq

/-- Embedding of `delete_video`: 404 when no owned row matches, otherwise
best-effort removal of the thumbnail file and (for local videos) the
source file, then deletion of the row. -/
def delete_video (st : AppState) (videoId userId : Int) (failT failV : Bool) :
    DeleteOutcome × AppState :=
  match findVideo st videoId userId with
  | none => (.notFound, st)
  | some v =>
    let tf := if v.thumbnail_path ≠ "" then tryRemove st.thumbFiles v.thumbnail_path failT
              else st.thumbFiles
    let uf := if (!v.is_youtube) && optTruthy v.video_path
              then tryRemove st.uploadFiles (v.video_path.getD "") failV
              else st.uploadFiles
    (.ok, { videos := st.videos.eraseP (videoKeyMatch videoId userId),
            thumbFiles := tf, uploadFiles := uf })

/-! ### Admin gating (src/app.py:53-65, 401-418)

The admin routes are decorated `@login_required` then `@admin_required`
(bottom decorator applied first, so `login_required` is the outer
wrapper). -/

structure SessionUser where
  is_authenticated : Bool
  username : String
deriving DecidableEq

/-- Embedding of `is_admin` (src/app.py:53-55). -/
def is_admin (u : SessionUser) : Bool :=
  u.is_authenticated && u.username == "admin"

inductive RouteOutcome (α : Type) where
  | ok (a : α)
  | httpError (code : Nat)
  | loginRedirect
deriving DecidableEq

/-- Embedding of the `admin_required` decorator (src/app.py:58-65). -/
def admin_required {α : Type} (f : Unit → α) (u : SessionUser) : RouteOutcome α :=
  if is_admin u then .ok (f ()) else .httpError 403

/-- Flask-Login `login_required`: unauthenticated requests are redirected
to the login view. -/
def login_required {α : Type} (f : SessionUser → RouteOutcome α) (u : SessionUser) :
    RouteOutcome α :=
  if u.is_authenticated then f u else .loginRedirect

/-- An admin route as composed in the source:
`login_required (admin_required handler)`. -/
def adminRoute {α : Type} (f : Unit → α) (u : SessionUser) : RouteOutcome α :=
  login_required (fun v => admin_required f v) u

/-! ### Auxiliary predicate and concrete environments used in statements -/

/-- The candidate loop reaches candidate `i` exactly when no earlier
candidate succeeded. -/
def Reaches (env : Nat → Attempt) (i : Nat) : Prop :=
  ∀ j < i, accepted env j = false

/-- Environment where the fetch of candidate 0 raises (e.g. a timeout) and
candidate 1 succeeds. -/
def envTimeout0 : Nat → Attempt :=
  fun i => if i = 0 then ⟨none, false⟩ else ⟨some (200, 4000), true⟩

/-- Environment where candidates 0 and 1 return 404 and candidate 2
succeeds. -/
def envAt2 : Nat → Attempt :=
  fun i => if i < 2 then ⟨some (404, 50), true⟩ else ⟨some (200, 5000), true⟩

/-- Environment where every candidate succeeds. -/
def envAllOk : Nat → Attempt := fun _ => ⟨some (200, 4000), true⟩

/-- Environment where every candidate returns 404. -/
def envAllFail : Nat → Attempt := fun _ => ⟨some (404, 120), false⟩

/-- A capture whose FPS property is unavailable (0.0) on a 100-frame
video. -/
def capW : CapEnv := ⟨true, 0, 100, fun _ => true⟩

/-- One-video application state for exercising `delete_video`. -/
def stW : AppState := ⟨[⟨1, 7, false, "t.jpg", some "v.mp4"⟩], ["t.jpg"], ["v.mp4"]⟩

/-- A well-formed upload request with an uppercase extension. -/
def reqW : UploadReq := ⟨true, "movie.MP4", some "3", some "My Movie"⟩

/-! ## Lemmas about the pattern matchers -/

theorem stripPre_some {p l r : List Char} : stripPre p l = some r ↔ l = p ++ r := by
  constructor
  · intro h
    unfold stripPre at h
    split at h
    · next hp =>
      obtain ⟨t, ht⟩ := List.isPrefixOf_iff_prefix.mp hp
      injection h with h
      rw [← ht] at h ⊢
      rw [List.drop_left] at h
      rw [h]
    · exact absurd h (by simp)
  · intro h
    subst h
    unfold stripPre
    rw [if_pos (List.isPrefixOf_iff_prefix.mpr ⟨r, rfl⟩), List.drop_left]

theorem takeId_some {l id : List Char} :
    takeId l = some id ↔ goodIdB id = true ∧ ∃ r, l = id ++ r := by
  constructor
  · intro h
    unfold takeId at h
    split at h
    · next hg =>
      injection h with h
      subst h
      exact ⟨hg, l.drop 11, (List.take_append_drop 11 l).symm⟩
    · exact absurd h (by simp)
  · rintro ⟨hg, r, rfl⟩
    have hlen : id.length = 11 := by
      have h' := hg
      unfold goodIdB at h'
      simp at h'
      exact h'.1
    have htake : (id ++ r).take 11 = id := by
      rw [← hlen]; exact List.take_left id r
    unfold takeId
    rw [htake, if_pos hg]

theorem matchAt1_some {l id : List Char} :
    matchAt1 l = some id ↔ goodIdB id = true ∧
      ((∃ r, l = watchPat ++ (id ++ r)) ∨ (∃ r, l = shortPat ++ (id ++ r)) ∨
       (∃ r, l = embedPat ++ (id ++ r))) := by
  constructor
  · intro h
    unfold matchAt1 at h
    cases hw : stripPre watchPat l with
    | some r =>
      simp only [hw] at h
      obtain ⟨hg, r', hr⟩ := takeId_some.mp h
      exact ⟨hg, Or.inl ⟨r', by rw [stripPre_some.mp hw, hr]⟩⟩
    | none =>
      simp only [hw] at h
      cases hs : stripPre shortPat l with
      | some r =>
        simp only [hs] at h
        obtain ⟨hg, r', hr⟩ := takeId_some.mp h
        exact ⟨hg, Or.inr (Or.inl ⟨r', by rw [stripPre_some.mp hs, hr]⟩)⟩
      | none =>
        simp only [hs] at h
        cases he : stripPre embedPat l with
        | some r =>
          simp only [he] at h
          obtain ⟨hg, r', hr⟩ := takeId_some.mp h
          exact ⟨hg, Or.inr (Or.inr ⟨r', by rw [stripPre_some.mp he, hr]⟩)⟩
        | none =>
          simp only [he] at h
          exact Option.noConfusion h
  · rintro ⟨hg, hd⟩
    rcases hd with ⟨r, rfl⟩ | ⟨r, rfl⟩ | ⟨r, rfl⟩
    · have h1 : stripPre watchPat (watchPat ++ (id ++ r)) = some (id ++ r) :=
        stripPre_some.mpr rfl
      have h2 : takeId (id ++ r) = some id := takeId_some.mpr ⟨hg, r, rfl⟩
      unfold matchAt1
      simp only [h1, h2]
    · have h0 : stripPre watchPat (shortPat ++ (id ++ r)) = none := by
        unfold stripPre
        rw [if_neg]
        rw [show watchPat.isPrefixOf (shortPat ++ (id ++ r)) = false from rfl]
        simp
      have h1 : stripPre shortPat (shortPat ++ (id ++ r)) = some (id ++ r) :=
        stripPre_some.mpr rfl
      have h2 : takeId (id ++ r) = some id := takeId_some.mpr ⟨hg, r, rfl⟩
      unfold matchAt1
      simp only [h0, h1, h2]
    · have h0 : stripPre watchPat (embedPat ++ (id ++ r)) = none := by
        unfold stripPre
        rw [if_neg]
        rw [show watchPat.isPrefixOf (embedPat ++ (id ++ r)) = false from rfl]
        simp
      have h0' : stripPre shortPat (embedPat ++ (id ++ r)) = none := by
        unfold stripPre
        rw [if_neg]
        rw [show shortPat.isPrefixOf (embedPat ++ (id ++ r)) = false from rfl]
        simp
      have h1 : stripPre embedPat (embedPat ++ (id ++ r)) = some (id ++ r) :=
        stripPre_some.mpr rfl
      have h2 : takeId (id ++ r) = some id := takeId_some.mpr ⟨hg, r, rfl⟩
      unfold matchAt1
      simp only [h0, h0', h1, h2]

theorem searchL_cons_none {m : List Char → Option (List Char)} {c : Char}
    {t : List Char} (h : m (c :: t) = none) :
    searchL m (c :: t) = searchL m t := by
  simp only [searchL, h]

theorem searchL_head_some {m : List Char → Option (List Char)} {l id : List Char}
    (h : m l = some id) : searchL m l = some id := by
  cases l with
  | nil => simpa [searchL] using h
  | cons c t => unfold searchL; simp only [h]

theorem searchL_eq_none {m : List Char → Option (List Char)} {l : List Char} :
    searchL m l = none ↔ ∀ t, t <:+ l → m t = none := by
  induction l with
  | nil =>
    constructor
    · intro h t ht
      rw [List.suffix_nil.mp ht]
      exact h
    · intro h
      exact h [] List.suffix_rfl
  | cons c t ih =>
    cases h : m (c :: t) with
    | some r =>
      rw [searchL_head_some h]
      constructor
      · intro hc
        exact absurd hc (by simp)
      · intro hall
        exact absurd (hall (c :: t) List.suffix_rfl) (by simp [h])
    | none =>
      rw [searchL_cons_none h, ih]
      constructor
      · intro hall t' ht'
        rcases List.suffix_cons_iff.mp ht' with h1 | h2
        · rw [h1]; exact h
        · exact hall t' h2
      · intro hall t' ht'
        exact hall t' (ht'.trans (List.suffix_cons c t))

theorem searchL_some_suffix {m : List Char → Option (List Char)} {l id : List Char}
    (h : searchL m l = some id) : ∃ t, t <:+ l ∧ m t = some id := by
  induction l with
  | nil => exact ⟨[], List.suffix_rfl, h⟩
  | cons c t ih =>
    by_cases hm : m (c :: t) = none
    · rw [searchL_cons_none hm] at h
      obtain ⟨t', ht', hmt⟩ := ih h
      exact ⟨t', ht'.trans (List.suffix_cons c t), hmt⟩
    · obtain ⟨r, hr⟩ := Option.ne_none_iff_exists'.mp hm
      rw [searchL_head_some hr] at h
      injection h with h
      subst h
      exact ⟨c :: t, List.suffix_rfl, hr⟩

theorem vMatch_some {l id : List Char} :
    vMatch l = some id ↔ goodIdB id = true ∧ ∃ r, l = 'v' :: '=' :: (id ++ r) := by
  constructor
  · intro h
    unfold vMatch at h
    cases hv : stripPre ['v', '='] l with
    | some r =>
      simp only [hv] at h
      obtain ⟨hg, r', hr⟩ := takeId_some.mp h
      exact ⟨hg, r', by rw [stripPre_some.mp hv, hr]; rfl⟩
    | none =>
      simp only [hv] at h
      exact Option.noConfusion h
  · rintro ⟨hg, r, rfl⟩
    have h1 : stripPre ['v', '='] ('v' :: '=' :: (id ++ r)) = some (id ++ r) :=
      stripPre_some.mpr rfl
    have h2 : takeId (id ++ r) = some id := takeId_some.mpr ⟨hg, r, rfl⟩
    unfold vMatch
    simp only [h1, h2]

theorem lastV_cons_ne {c : Char} {t : List Char} (hc : ¬ c = '\n') :
    lastV (c :: t) = match lastV t with
      | some r => some r
      | none => vMatch (c :: t) := by
  simp only [lastV, if_neg hc]

theorem lastV_ne_none {l : List Char} :
    lastV l ≠ none ↔ ∃ g id r, goodIdB id = true ∧ '\n' ∉ g ∧
      l = g ++ ('v' :: '=' :: (id ++ r)) := by
  induction l with
  | nil =>
    constructor
    · intro h
      exact absurd rfl h
    · rintro ⟨g, id, r, hg, hnl, hl⟩
      exact absurd hl (by cases g <;> simp)
  | cons c t ih =>
    by_cases hc : c = '\n'
    · subst hc
      constructor
      · intro h
        exact absurd (by simp [lastV] : lastV ('\n' :: t) = none) h
      · rintro ⟨g, id, r, hg, hnl, hl⟩
        exfalso
        cases g with
        | nil =>
          rw [List.nil_append] at hl
          injection hl with h1 _
          exact absurd h1 (by decide)
        | cons d g' =>
          rw [List.cons_append] at hl
          injection hl with h1 _
          exact hnl (by rw [← h1]; exact List.mem_cons_self _ _)
    · rw [lastV_cons_ne hc]
      cases hlv : lastV t with
      | some r0 =>
        constructor
        · intro _
          obtain ⟨g, id, r, hg, hnl, hl⟩ := ih.mp (by simp [hlv])
          refine ⟨c :: g, id, r, hg, ?_, by rw [List.cons_append, hl]⟩
          intro hm
          rcases List.mem_cons.mp hm with h1 | h1
          · exact hc h1.symm
          · exact hnl h1
        · intro _
          simp
      | none =>
        constructor
        · intro h
          obtain ⟨r0, hr0⟩ := Option.ne_none_iff_exists'.mp h
          obtain ⟨hg, r', hr⟩ := vMatch_some.mp hr0
          exact ⟨[], r0, r', hg, by simp, by simpa using hr⟩
        · rintro ⟨g, id, r, hg, hnl, hl⟩
          cases g with
          | nil =>
            rw [List.nil_append] at hl
            have hv : vMatch (c :: t) = some id := vMatch_some.mpr ⟨hg, r, hl⟩
            simp [hv]
          | cons d g' =>
            rw [List.cons_append] at hl
            injection hl with h1 h2
            exfalso
            have hnl' : '\n' ∉ g' := fun hm => hnl (List.mem_cons_of_mem _ hm)
            exact (ih.mpr ⟨g', id, r, hg, hnl', h2⟩) hlv

theorem lastV_good {l id : List Char} (h : lastV l = some id) : goodIdB id = true := by
  induction l with
  | nil => simp [lastV] at h
  | cons c t ih =>
    by_cases hc : c = '\n'
    · subst hc
      simp [lastV] at h
    · rw [lastV_cons_ne hc] at h
      cases hlv : lastV t with
      | some r0 =>
        simp only [hlv] at h
        injection h with h
        subst h
        exact ih hlv
      | none =>
        simp only [hlv] at h
        exact (vMatch_some.mp h).1

theorem matchAt2_ne_none {l : List Char} :
    matchAt2 l ≠ none ↔ ∃ g id r, goodIdB id = true ∧ '\n' ∉ g ∧
      l = watchQPat ++ (g ++ ('v' :: '=' :: (id ++ r))) := by
  unfold matchAt2
  cases hq : stripPre watchQPat l with
  | some rest =>
    have hl := stripPre_some.mp hq
    simp only []
    rw [lastV_ne_none]
    constructor
    · rintro ⟨g, id, r, hg, hnl, hr⟩
      exact ⟨g, id, r, hg, hnl, by rw [hl, hr]⟩
    · rintro ⟨g, id, r, hg, hnl, hr⟩
      refine ⟨g, id, r, hg, hnl, ?_⟩
      have h2 : watchQPat ++ rest = watchQPat ++ (g ++ ('v' :: '=' :: (id ++ r))) := by
        rw [← hl, hr]
      exact List.append_cancel_left h2
  | none =>
    simp only []
    constructor
    · intro h
      exact absurd rfl h
    · rintro ⟨g, id, r, hg, hnl, hr⟩
      have h2 : stripPre watchQPat l = some (g ++ ('v' :: '=' :: (id ++ r))) :=
        stripPre_some.mpr hr
      rw [hq] at h2
      exact absurd h2 (by simp)

theorem matchAt2_good {l id : List Char} (h : matchAt2 l = some id) :
    goodIdB id = true := by
  unfold matchAt2 at h
  cases hq : stripPre watchQPat l with
  | some rest =>
    simp only [hq] at h
    exact lastV_good h
  | none =>
    simp only [hq] at h
    exact Option.noConfusion h

/-! ## Lemmas about `extractL` -/

theorem extractL_eq_none_iff {l : List Char} : extractL l = none ↔ ¬ SpecShape l := by
  unfold extractL
  cases h1 : searchL matchAt1 l with
  | some r =>
    simp only []
    constructor
    · intro h
      exact absurd h (by simp)
    · intro hns
      exfalso
      obtain ⟨t, ht, hmt⟩ := searchL_some_suffix h1
      obtain ⟨hg, hd⟩ := matchAt1_some.mp hmt
      obtain ⟨p, hp⟩ := ht
      apply hns
      left
      rcases hd with ⟨r', hr⟩ | ⟨r', hr⟩ | ⟨r', hr⟩
      · exact ⟨p, r, r', hg, Or.inl (by rw [← hp, hr])⟩
      · exact ⟨p, r, r', hg, Or.inr (Or.inl (by rw [← hp, hr]))⟩
      · exact ⟨p, r, r', hg, Or.inr (Or.inr (by rw [← hp, hr]))⟩
  | none =>
    simp only []
    have hall1 : ∀ t, t <:+ l → matchAt1 t = none := searchL_eq_none.mp h1
    rw [searchL_eq_none]
    constructor
    · intro hall2 hs
      rcases hs with ⟨p, id, r, hg, hd⟩ | ⟨p, g, id, r, hg, hnl, hd⟩
      · rcases hd with hd | hd | hd
        · have hma : matchAt1 (watchPat ++ (id ++ r)) = some id :=
            matchAt1_some.mpr ⟨hg, Or.inl ⟨r, rfl⟩⟩
          rw [hall1 _ ⟨p, hd.symm⟩] at hma
          exact Option.noConfusion hma
        · have hma : matchAt1 (shortPat ++ (id ++ r)) = some id :=
            matchAt1_some.mpr ⟨hg, Or.inr (Or.inl ⟨r, rfl⟩)⟩
          rw [hall1 _ ⟨p, hd.symm⟩] at hma
          exact Option.noConfusion hma
        · have hma : matchAt1 (embedPat ++ (id ++ r)) = some id :=
            matchAt1_some.mpr ⟨hg, Or.inr (Or.inr ⟨r, rfl⟩)⟩
          rw [hall1 _ ⟨p, hd.symm⟩] at hma
          exact Option.noConfusion hma
      · have hm2 : matchAt2 (watchQPat ++ (g ++ ('v' :: '=' :: (id ++ r)))) ≠ none :=
          matchAt2_ne_none.mpr ⟨g, id, r, hg, hnl, rfl⟩
        exact hm2 (hall2 _ ⟨p, hd.symm⟩)
    · intro hns t ht
      by_contra hmt
      obtain ⟨g, id, r, hg, hnl, hr⟩ := matchAt2_ne_none.mp (hmt : matchAt2 t ≠ none)
      obtain ⟨p, hp⟩ := ht
      exact hns (Or.inr ⟨p, g, id, r, hg, hnl, by rw [← hp, hr]⟩)

theorem extractL_good {l id : List Char} (h : extractL l = some id) :
    goodIdB id = true := by
  unfold extractL at h
  cases h1 : searchL matchAt1 l with
  | some r =>
    rw [h1] at h
    injection h with h
    subst h
    obtain ⟨t, _, hmt⟩ := searchL_some_suffix h1
    exact (matchAt1_some.mp hmt).1
  | none =>
    rw [h1] at h
    obtain ⟨t, _, hmt⟩ := searchL_some_suffix h
    exact matchAt2_good hmt

/-! ## Positive extraction on the canonical URL forms -/

theorem matchAt1_head_ne {c : Char} {t : List Char} (h : c ≠ 'y') :
    matchAt1 (c :: t) = none := by
  have hy : ('y' == c) = false := beq_eq_false_iff_ne.mpr (Ne.symm h)
  have hw : watchPat.isPrefixOf (c :: t) = false := by
    rw [show watchPat.isPrefixOf (c :: t)
          = ('y' == c && (("outube.com/watch?v=".toList).isPrefixOf t)) from rfl, hy,
        Bool.false_and]
  have hs : shortPat.isPrefixOf (c :: t) = false := by
    rw [show shortPat.isPrefixOf (c :: t)
          = ('y' == c && (("outu.be/".toList).isPrefixOf t)) from rfl, hy,
        Bool.false_and]
  have he : embedPat.isPrefixOf (c :: t) = false := by
    rw [show embedPat.isPrefixOf (c :: t)
          = ('y' == c && (("outube.com/embed/".toList).isPrefixOf t)) from rfl, hy,
        Bool.false_and]
  unfold matchAt1 stripPre
  simp [hw, hs, he]

theorem searchL1_skip {pre l : List Char} (h : ∀ c ∈ pre, c ≠ 'y') :
    searchL matchAt1 (pre ++ l) = searchL matchAt1 l := by
  induction pre with
  | nil => rfl
  | cons c p ih =>
    rw [List.cons_append,
        searchL_cons_none (matchAt1_head_ne (h c (List.mem_cons_self c p))),
        ih (fun d hd => h d (List.mem_cons_of_mem c hd))]

theorem extractL_of_search1 {l id : List Char} (h : searchL matchAt1 l = some id) :
    extractL l = some id := by
  unfold extractL
  simp only [h]

/-! ## Lemmas about the candidate scan -/

theorem scanIdx_some {p : Nat → Bool} {l : List Nat} {i : Nat}
    (h : scanIdx p l = some i) : i ∈ l ∧ p i = true := by
  induction l with
  | nil => exact Option.noConfusion h
  | cons a t ih =>
    unfold scanIdx at h
    by_cases ha : p a = true
    · rw [if_pos ha] at h
      injection h with h
      subst h
      exact ⟨List.mem_cons_self a t, ha⟩
    · rw [if_neg ha] at h
      obtain ⟨h1, h2⟩ := ih h
      exact ⟨List.mem_cons_of_mem a h1, h2⟩

theorem scanIdx_eq_none {p : Nat → Bool} {l : List Nat} :
    scanIdx p l = none ↔ ∀ i ∈ l, p i = false := by
  induction l with
  | nil => simp [scanIdx]
  | cons a t ih =>
    unfold scanIdx
    by_cases ha : p a = true
    · simp [ha]
    · rw [Bool.not_eq_true] at ha
      simp [ha, ih]

theorem scanIdx_map_succ {p : Nat → Bool} {l : List Nat} :
    scanIdx p (l.map Nat.succ) = (scanIdx (fun k => p (k + 1)) l).map Nat.succ := by
  induction l with
  | nil => rfl
  | cons a t ih =>
    rw [List.map_cons]
    unfold scanIdx
    cases ha : p (a + 1) with
    | true => simp [Nat.succ_eq_add_one, ha]
    | false => simp [Nat.succ_eq_add_one, ha, ih]

theorem scanIdx_range_min {p : Nat → Bool} {n i : Nat}
    (h : scanIdx p (List.range n) = some i) : ∀ j < i, p j = false := by
  induction n generalizing p i with
  | zero => simp [List.range_zero, scanIdx] at h
  | succ n ih =>
    rw [List.range_succ_eq_map] at h
    unfold scanIdx at h
    by_cases h0 : p 0 = true
    · rw [if_pos h0] at h
      injection h with h
      subst h
      intro j hj
      exact absurd hj (Nat.not_lt_zero j)
    · rw [if_neg h0] at h
      rw [Bool.not_eq_true] at h0
      rw [scanIdx_map_succ] at h
      cases hs : scanIdx (fun k => p (k + 1)) (List.range n) with
      | none => rw [hs] at h; exact Option.noConfusion h
      | some i' =>
        rw [hs] at h
        injection h with h
        subst h
        intro j hj
        cases j with
        | zero => exact h0
        | succ k => exact ih hs k (by omega)

/-! ## String-level bridges -/

theorem toList_append (a b : String) : (a ++ b).toList = a.toList ++ b.toList :=
  String.data_append a b

theorem toList_mk (l : List Char) : (String.mk l).toList = l := rfl

theorem toList_app3 (a : String) (id : List Char) (rest : String) :
    (a ++ String.mk id ++ rest).toList = a.toList ++ id ++ rest.toList := by
  show (a ++ String.mk id ++ rest).data = a.data ++ id ++ rest.data
  rw [String.data_append, String.data_append]

theorem str_app_ne_left (a b : String) (ha : a ≠ "") : a ++ b ≠ "" := by
  obtain ⟨la⟩ := a
  obtain ⟨lb⟩ := b
  intro h
  apply ha
  have hd : la ++ lb = ([] : List Char) := congrArg String.data h
  have h3 := (List.append_eq_nil.mp hd).1
  rw [h3]

theorem str_app_ne_right (a b : String) (hb : b ≠ "") : a ++ b ≠ "" := by
  obtain ⟨la⟩ := a
  obtain ⟨lb⟩ := b
  intro h
  apply hb
  have hd : la ++ lb = ([] : List Char) := congrArg String.data h
  have h3 := (List.append_eq_nil.mp hd).2
  rw [h3]

/-! ## Lemmas about the extension split -/

theorem takeWhile_all_append {p : Char → Bool} {xs : List Char} {y : Char}
    {r : List Char} (hall : ∀ c ∈ xs, p c = true) (hy : p y = false) :
    (xs ++ y :: r).takeWhile p = xs := by
  induction xs with
  | nil => simp [List.takeWhile_cons, hy]
  | cons a s ih =>
    rw [List.cons_append, List.takeWhile_cons, if_pos (hall a (List.mem_cons_self a s)),
        ih (fun c hc => hall c (List.mem_cons_of_mem a hc))]

theorem dropWhile_mem_dot {l : List Char} (h : '.' ∈ l) :
    ∃ d, l.dropWhile (fun c => !(c == '.')) = '.' :: d := by
  induction l with
  | nil => simp at h
  | cons a t ih =>
    by_cases ha : a = '.'
    · subst ha
      exact ⟨t, by simp [List.dropWhile_cons]⟩
    · have h' : '.' ∈ t := by
        rcases List.mem_cons.mp h with h1 | h1
        · exact absurd h1.symm ha
        · exact h1
      obtain ⟨d, hd⟩ := ih h'
      refine ⟨d, ?_⟩
      rw [List.dropWhile_cons, if_pos (by simp [ha]), hd]

theorem mem_takeWhile_sat {p : Char → Bool} {l : List Char} {c : Char}
    (h : c ∈ l.takeWhile p) : p c = true := by
  induction l with
  | nil => simp [List.takeWhile] at h
  | cons a t ih =>
    rw [List.takeWhile_cons] at h
    by_cases ha : p a = true
    · rw [if_pos ha] at h
      rcases List.mem_cons.mp h with h1 | h1
      · rw [h1]; exact ha
      · exact ih h1
    · rw [if_neg ha] at h
      simp at h

theorem extChars_split {l : List Char} (h : '.' ∈ l) :
    ∃ a, l = a ++ '.' :: extChars l ∧ '.' ∉ extChars l := by
  have hrev : '.' ∈ l.reverse := List.mem_reverse.mpr h
  obtain ⟨d, hd⟩ := dropWhile_mem_dot hrev
  have hsplit : l.reverse.takeWhile (fun c => !(c == '.')) ++ '.' :: d = l.reverse := by
    rw [← hd]
    exact List.takeWhile_append_dropWhile _ _
  refine ⟨d.reverse, ?_, ?_⟩
  · have h3 := congrArg List.reverse hsplit
    rw [List.reverse_reverse, List.reverse_append, List.reverse_cons, List.append_assoc,
        List.singleton_append] at h3
    exact h3.symm
  · intro hm
    have hm2 : '.' ∈ l.reverse.takeWhile (fun c => !(c == '.')) := List.mem_reverse.mp hm
    have := mem_takeWhile_sat hm2
    simp at this

theorem extChars_of_split {a b : List Char} (hb : '.' ∉ b) :
    extChars (a ++ '.' :: b) = b := by
  unfold extChars
  rw [List.reverse_append, List.reverse_cons, List.append_assoc, List.singleton_append]
  have hall : ∀ c ∈ b.reverse, (fun c => !(c == '.')) c = true := by
    intro c hc
    have hcb : c ∈ b := List.mem_reverse.mp hc
    have hcd : c ≠ '.' := fun he => hb (he ▸ hcb)
    simp [hcd]
  rw [takeWhile_all_append hall (by simp), List.reverse_reverse]

/-! ## Lemma about row lookup after erasure -/

theorem find?_eraseP_none {l : List VideoRec} {I U : Int}
    (hnd : (l.map VideoRec.vid).Nodup) :
    (l.eraseP (videoKeyMatch I U)).find? (videoKeyMatch I U) = none := by
  induction l with
  | nil => rfl
  | cons v t ih =>
    rw [List.map_cons, List.nodup_cons] at hnd
    by_cases hv : videoKeyMatch I U v = true
    · rw [List.eraseP_cons_of_pos hv, List.find?_eq_none]
      intro w hw hpw
      have h1 : v.vid = I := by
        have := hv
        unfold videoKeyMatch at this
        simp at this
        exact this.1
      have h2 : w.vid = I := by
        have := hpw
        unfold videoKeyMatch at this
        simp at this
        exact this.1
      exact hnd.1 (by rw [h1, ← h2]; exact List.mem_map_of_mem VideoRec.vid hw)
    · rw [List.eraseP_cons_of_neg hv, List.find?_cons_of_neg _ hv]
      exact ih hnd.2

/-! ## Claim C2 -/

/-- C2: for every URL of one of the recognized shapes (standard watch URL,
short youtu.be URL, embed URL) `extract_video_id` returns exactly the
11-character identifier token (stated for the canonical forms with an
arbitrary valid token and arbitrary trailing text, and in general every
recognized-shape string yields some valid 11-character token); for every
non-matching string it returns `none`, and in that case `add_youtube`
records no Video row. -/
theorem spec_C2 :
    (∀ (id : List Char) (rest : String), goodIdB id = true →
        extract_video_id ("https://www.youtube.com/watch?v=" ++ String.mk id ++ rest)
          = some (String.mk id)
      ∧ extract_video_id ("https://youtu.be/" ++ String.mk id ++ rest)
          = some (String.mk id)
      ∧ extract_video_id ("https://www.youtube.com/embed/" ++ String.mk id ++ rest)
          = some (String.mk id))
    ∧ (∀ s : String, extract_video_id s = none ↔ ¬ SpecShape s.toList)
    ∧ (∀ s : String, SpecShape s.toList →
        ∃ id, extract_video_id s = some (String.mk id) ∧ goodIdB id = true)
    ∧ (∀ (url cat : Option String) (catVal uid : Int) (tEnv : HttpOut)
        (env : Nat → Attempt) (ts : String) (u : String),
        url = some u → extract_video_id u = none →
        add_youtube url cat catVal uid tEnv env ts = none) := by
  have hwatch : ∀ (id : List Char) (rest : String), goodIdB id = true →
      extract_video_id ("https://www.youtube.com/watch?v=" ++ String.mk id ++ rest)
        = some (String.mk id) := by
    intro id rest hg
    unfold extract_video_id
    have hlist : ("https://www.youtube.com/watch?v=" ++ String.mk id ++ rest).toList
        = "https://www.".toList ++ (watchPat ++ (id ++ rest.toList)) := by
      rw [toList_app3,
          show "https://www.youtube.com/watch?v=".toList
            = "https://www.".toList ++ watchPat from rfl]
      simp [List.append_assoc]
    rw [hlist]
    have hm : matchAt1 (watchPat ++ (id ++ rest.toList)) = some id :=
      matchAt1_some.mpr ⟨hg, Or.inl ⟨rest.toList, rfl⟩⟩
    rw [extractL_of_search1 (by
      rw [searchL1_skip (by decide)]
      exact searchL_head_some hm)]
    rfl
  have hshort : ∀ (id : List Char) (rest : String), goodIdB id = true →
      extract_video_id ("https://youtu.be/" ++ String.mk id ++ rest)
        = some (String.mk id) := by
    intro id rest hg
    unfold extract_video_id
    have hlist : ("https://youtu.be/" ++ String.mk id ++ rest).toList
        = "https://".toList ++ (shortPat ++ (id ++ rest.toList)) := by
      rw [toList_app3,
          show "https://youtu.be/".toList = "https://".toList ++ shortPat from rfl]
      simp [List.append_assoc]
    rw [hlist]
    have hm : matchAt1 (shortPat ++ (id ++ rest.toList)) = some id :=
      matchAt1_some.mpr ⟨hg, Or.inr (Or.inl ⟨rest.toList, rfl⟩)⟩
    rw [extractL_of_search1 (by
      rw [searchL1_skip (by decide)]
      exact searchL_head_some hm)]
    rfl
  have hembed : ∀ (id : List Char) (rest : String), goodIdB id = true →
      extract_video_id ("https://www.youtube.com/embed/" ++ String.mk id ++ rest)
        = some (String.mk id) := by
    intro id rest hg
    unfold extract_video_id
    have hlist : ("https://www.youtube.com/embed/" ++ String.mk id ++ rest).toList
        = "https://www.".toList ++ (embedPat ++ (id ++ rest.toList)) := by
      rw [toList_app3,
          show "https://www.youtube.com/embed/".toList
            = "https://www.".toList ++ embedPat from rfl]
      simp [List.append_assoc]
    rw [hlist]
    have hm : matchAt1 (embedPat ++ (id ++ rest.toList)) = some id :=
      matchAt1_some.mpr ⟨hg, Or.inr (Or.inr ⟨rest.toList, rfl⟩)⟩
    rw [extractL_of_search1 (by
      rw [searchL1_skip (by decide)]
      exact searchL_head_some hm)]
    rfl
  refine ⟨fun id rest hg => ⟨hwatch id rest hg, hshort id rest hg, hembed id rest hg⟩,
    ?_, ?_, ?_⟩
  · intro s
    unfold extract_video_id
    rw [Option.map_eq_none']
    exact extractL_eq_none_iff
  · intro s hs
    cases he : extractL s.toList with
    | none => exact absurd hs (extractL_eq_none_iff.mp he)
    | some id =>
      refine ⟨id, ?_, extractL_good he⟩
      unfold extract_video_id
      rw [he]
      rfl
  · intro url cat catVal uid tEnv env ts u hu he
    subst hu
    cases cat with
    | none => rfl
    | some c => simp [add_youtube, extract_youtube_thumbnail, he, optTruthy]

/-- Witness for C2: a concrete watch URL yields its token, and a concrete
non-matching string makes the add operation a no-op. -/
theorem spec_C2_witness :
    extract_video_id "https://www.youtube.com/watch?v=dQw4w9WgXcQ" = some "dQw4w9WgXcQ"
    ∧ add_youtube (some "notaurl") (some "1") 1 1 HttpOut.exn envAllOk "20240101000000" = none := by
  constructor
  · exact (spec_C2.1 "dQw4w9WgXcQ".toList "" (by decide)).1
  · exact spec_C2.2.2.2 (some "notaurl") (some "1") 1 1 HttpOut.exn envAllOk
      "20240101000000" "notaurl" rfl (by decide)

/-! ## Claim C1 -/

/-- C1 counterexample: in the environment where the fetch of the
max-resolution candidate raises (e.g. a timeout) and so returns no status
and no payload at all, the loop still proceeds past candidate 0 and
selects candidate 1 — so the loop does not proceed *only* on a returned
non-success status or small payload. -/
theorem spec_C1_cex :
    (envTimeout0 0).fetched = none ∧ accepted envTimeout0 0 = false ∧
    thumbLoop envTimeout0 "dQw4w9WgXcQ" = some 1 := ⟨rfl, rfl, rfl⟩

/-- C1 (amended): the candidate URLs are tried in the fixed
descending-quality order maxresdefault, sddefault, hqdefault, mqdefault,
default, with the max-resolution variant first; a candidate is accepted
only when its fetch returned a success status (200) and a payload of more
than the minimum 1000 bytes (and the decode/save step did not raise); the
loop stops at the first accepted candidate; and it proceeds to the next
variant exactly when the previous candidate was not accepted — which,
when the attempt did return a response and decoding succeeded, happens
exactly on a non-success status or a payload of at most 1000 bytes, but
also happens when the attempt raised and returned nothing. -/
theorem spec_C1 (video_id : String) (env : Nat → Attempt) :
    (thumbnail_urls video_id = [
      "https://img.youtube.com/vi/" ++ video_id ++ "/maxresdefault.jpg",
      "https://img.youtube.com/vi/" ++ video_id ++ "/sddefault.jpg",
      "https://img.youtube.com/vi/" ++ video_id ++ "/hqdefault.jpg",
      "https://img.youtube.com/vi/" ++ video_id ++ "/mqdefault.jpg",
      "https://img.youtube.com/vi/" ++ video_id ++ "/default.jpg"])
    ∧ (∀ i, thumbLoop env video_id = some i →
        (∃ st sz, (env i).fetched = some (st, sz) ∧ st = 200 ∧ 1000 < sz ∧
          (env i).decodeOk = true)
        ∧ (∀ j < i, accepted env j = false))
    ∧ (∀ i, Reaches env (i + 1) ↔ Reaches env i ∧ accepted env i = false)
    ∧ (∀ i st sz, (env i).fetched = some (st, sz) → (env i).decodeOk = true →
        (accepted env i = false ↔ (st ≠ 200 ∨ sz ≤ 1000)))
    ∧ (∀ i, (env i).fetched = none → accepted env i = false) := by
  refine ⟨rfl, ?_, ?_, ?_, ?_⟩
  · intro i h
    have h' : scanIdx (accepted env) (List.range (thumbnail_urls video_id).length)
        = some i := h
    obtain ⟨hmem, hacc⟩ := scanIdx_some h'
    constructor
    · cases hf : (env i).fetched with
      | none =>
        simp only [accepted, hf] at hacc
        exact absurd hacc (by simp)
      | some p =>
        obtain ⟨st, sz⟩ := p
        simp only [accepted, hf] at hacc
        simp at hacc
        refine ⟨st, sz, rfl, ?_, ?_, ?_⟩
        · exact hacc.1.1
        · exact hacc.1.2
        · exact hacc.2
    · exact fun j hj => scanIdx_range_min h' j hj
  · intro i
    constructor
    · intro h
      exact ⟨fun j hj => h j (Nat.lt_succ_of_lt hj), h i (Nat.lt_succ_self i)⟩
    · rintro ⟨h1, h2⟩ j hj
      rcases Nat.lt_succ_iff_lt_or_eq.mp hj with h3 | h3
      · exact h1 j h3
      · rw [h3]; exact h2
  · intro i st sz hf hd
    simp only [accepted, hf, hd]
    by_cases h200 : st = 200
    · by_cases hsz : 1000 < sz
      · have hsz' : ¬ sz ≤ 1000 := Nat.not_le.mpr hsz
        simp [h200, hsz, hsz']
      · have hsz' : sz ≤ 1000 := Nat.not_lt.mp hsz
        simp [h200, hsz, hsz']
    · simp [h200]
  · intro i hf
    simp [accepted, hf]

/-- Witness for C1 at a concrete environment: candidates 0 and 1 fail (404)
and the loop selects candidate 2, which returned 200 with 5000 bytes. -/
theorem spec_C1_witness :
    (∃ st sz, (envAt2 2).fetched = some (st, sz) ∧ st = 200 ∧ 1000 < sz ∧
      (envAt2 2).decodeOk = true) ∧ (∀ j < 2, accepted envAt2 j = false) := by
  have h := (spec_C1 "dQw4w9WgXcQ" envAt2).2.1 2 (by rfl)
  exact ⟨h.1, h.2⟩

/-! ## Reduction lemmas for the add operations -/

theorem accepted_of_parts {env : Nat → Attempt} {i st sz : Nat}
    (hf : (env i).fetched = some (st, sz)) (h200 : st = 200) (hsz : 1000 < sz)
    (hd : (env i).decodeOk = true) : accepted env i = true := by
  simp [accepted, hf, h200, hsz, hd]

theorem extract_thumb_eq_some {tEnv : HttpOut} {env : Nat → Attempt}
    {ts u vid : String} {k : Nat}
    (hx : extract_video_id u = some vid) (hl : thumbLoop env vid = some k) :
    extract_youtube_thumbnail tEnv env ts u
      = (some ("yt_" ++ vid ++ "_" ++ ts ++ ".jpg"), some (get_youtube_title tEnv)) := by
  unfold extract_youtube_thumbnail
  simp only [hx, hl]

theorem extract_thumb_eq_none {tEnv : HttpOut} {env : Nat → Attempt}
    {ts u vid : String}
    (hx : extract_video_id u = some vid) (hl : thumbLoop env vid = none) :
    extract_youtube_thumbnail tEnv env ts u = (none, some (get_youtube_title tEnv)) := by
  unfold extract_youtube_thumbnail
  simp only [hx, hl]

theorem add_youtube_eq {u c : String} {catVal uid : Int} {tEnv : HttpOut}
    {env : Nat → Attempt} {ts : String} (hu : u ≠ "") (hc : c ≠ "") :
    add_youtube (some u) (some c) catVal uid tEnv env ts =
      (if optTruthy (extract_youtube_thumbnail tEnv env ts u).1
          || optTruthy (extract_youtube_thumbnail tEnv env ts u).2 then
        some { title := pyOrStr ((extract_youtube_thumbnail tEnv env ts u).2.getD "")
                 "YouTube Video",
               thumbnail_path := (extract_youtube_thumbnail tEnv env ts u).1.getD "",
               video_path := none, youtube_url := some u, is_youtube := true,
               category_id := catVal, user_id := uid }
      else none) := by
  simp only [add_youtube]
  rw [if_pos (show u ≠ "" ∧ c ≠ "" from ⟨hu, hc⟩)]

theorem title_ne_empty {tEnv : HttpOut}
    (ht : ∀ t, tEnv = HttpOut.resp 200 (some t) → t ≠ "") :
    get_youtube_title tEnv ≠ "" := by
  cases tEnv with
  | exn => simp [get_youtube_title]
  | resp st jt =>
    by_cases h200 : st = 200
    · subst h200
      cases jt with
      | none => simp [get_youtube_title]
      | some t =>
        simp only [get_youtube_title, if_pos rfl, Option.getD_some]
        exact ht t rfl
    · simp [get_youtube_title, h200]

/-! ## Claim C3 -/

/-- C3: for a POST to add_youtube with a URL from which an identifier is
extracted and a valid (truthy) category id, and assuming the oEmbed title,
when one is served, is nonempty, a Video row is created with is_youtube
true, youtube_url the submitted URL verbatim, title equal to the
oEmbed-fetched title (and to the fixed fallback "YouTube Video" when the
lookup fails: exception or non-200 status), and thumbnail_path nonempty if
at least one candidate image attempt succeeded with a payload over the
1000-byte threshold. -/
theorem spec_C3 (u c : String) (catVal uid : Int) (tEnv : HttpOut)
    (env : Nat → Attempt) (ts vid : String)
    (hx : extract_video_id u = some vid)
    (hc : c ≠ "")
    (ht : ∀ t, tEnv = HttpOut.resp 200 (some t) → t ≠ "") :
    ∃ row, add_youtube (some u) (some c) catVal uid tEnv env ts = some row
      ∧ row.is_youtube = true
      ∧ row.youtube_url = some u
      ∧ row.video_path = none
      ∧ row.title = get_youtube_title tEnv
      ∧ (tEnv = HttpOut.exn → row.title = "YouTube Video")
      ∧ (∀ st jt, tEnv = HttpOut.resp st jt → st ≠ 200 → row.title = "YouTube Video")
      ∧ (∀ t, tEnv = HttpOut.resp 200 (some t) → row.title = t)
      ∧ ((∃ i st sz, i < 5 ∧ (env i).fetched = some (st, sz) ∧ st = 200 ∧
          1000 < sz ∧ (env i).decodeOk = true) → row.thumbnail_path ≠ "") := by
  have hu : u ≠ "" := by
    intro he
    rw [he] at hx
    rw [show extract_video_id "" = none from rfl] at hx
    exact Option.noConfusion hx
  have htitle : get_youtube_title tEnv ≠ "" := title_ne_empty ht
  have hpy : pyOrStr (get_youtube_title tEnv) "YouTube Video" = get_youtube_title tEnv := by
    unfold pyOrStr
    rw [if_neg htitle]
  have htprops : ∀ row : VideoRow, row.title = get_youtube_title tEnv →
      (tEnv = HttpOut.exn → row.title = "YouTube Video")
      ∧ (∀ st jt, tEnv = HttpOut.resp st jt → st ≠ 200 → row.title = "YouTube Video")
      ∧ (∀ t, tEnv = HttpOut.resp 200 (some t) → row.title = t) := by
    intro row hrt
    refine ⟨?_, ?_, ?_⟩
    · intro h
      rw [hrt, h]
      rfl
    · intro st jt h hne
      rw [hrt, h]
      simp [get_youtube_title, hne]
    · intro t h
      rw [hrt, h]
      simp [get_youtube_title]
  cases hl : thumbLoop env vid with
  | some k =>
    have hfn : ("yt_" ++ vid ++ "_" ++ ts ++ ".jpg" : String) ≠ "" :=
      str_app_ne_right _ _ (by decide)
    have hbf : (("yt_" ++ vid ++ "_" ++ ts ++ ".jpg" : String) == "") = false :=
      beq_eq_false_iff_ne.mpr hfn
    have heq : add_youtube (some u) (some c) catVal uid tEnv env ts
        = some { title := pyOrStr (get_youtube_title tEnv) "YouTube Video",
                 thumbnail_path := "yt_" ++ vid ++ "_" ++ ts ++ ".jpg",
                 video_path := none, youtube_url := some u, is_youtube := true,
                 category_id := catVal, user_id := uid } := by
      rw [add_youtube_eq hu hc, extract_thumb_eq_some hx hl]
      simp [optTruthy, hbf]
    refine ⟨_, heq, rfl, rfl, rfl, hpy, ?_, ?_, ?_, ?_⟩
    · exact (htprops _ hpy).1
    · exact (htprops _ hpy).2.1
    · exact (htprops _ hpy).2.2
    · intro _
      exact hfn
  | none =>
    have hbt : ((get_youtube_title tEnv) == "") = false :=
      beq_eq_false_iff_ne.mpr htitle
    have heq : add_youtube (some u) (some c) catVal uid tEnv env ts
        = some { title := pyOrStr (get_youtube_title tEnv) "YouTube Video",
                 thumbnail_path := "",
                 video_path := none, youtube_url := some u, is_youtube := true,
                 category_id := catVal, user_id := uid } := by
      rw [add_youtube_eq hu hc, extract_thumb_eq_none hx hl]
      simp [optTruthy, hbt]
    refine ⟨_, heq, rfl, rfl, rfl, hpy, ?_, ?_, ?_, ?_⟩
    · exact (htprops _ hpy).1
    · exact (htprops _ hpy).2.1
    · exact (htprops _ hpy).2.2
    · rintro ⟨i, st, sz, hi, hfetch, h200, hsz, hdec⟩
      exfalso
      have hl' : scanIdx (accepted env) (List.range (thumbnail_urls vid).length)
          = none := hl
      have hnone := scanIdx_eq_none.mp hl' i (List.mem_range.mpr (by exact hi))
      rw [accepted_of_parts hfetch h200 hsz hdec] at hnone
      exact Bool.noConfusion hnone

/-- Witness for C3: the concrete scenario with the short URL, a served
title, and a first candidate of 4000 bytes. -/
theorem spec_C3_witness :
    ∃ row, add_youtube (some "https://youtu.be/dQw4w9WgXcQ") (some "1") 1 1
        (HttpOut.resp 200 (some "Never Gonna Give You Up")) envAllOk
        "20240101000000" = some row
      ∧ row.is_youtube = true
      ∧ row.youtube_url = some "https://youtu.be/dQw4w9WgXcQ"
      ∧ row.title = "Never Gonna Give You Up"
      ∧ row.thumbnail_path ≠ "" := by
  obtain ⟨row, h1, h2, h3, _, _, _, _, h8, h9⟩ :=
    spec_C3 "https://youtu.be/dQw4w9WgXcQ" "1" 1 1
      (HttpOut.resp 200 (some "Never Gonna Give You Up")) envAllOk
      "20240101000000" "dQw4w9WgXcQ" (by decide) (by decide)
      (fun t h => by injection h with _ h2; injection h2 with h3; rw [← h3]; decide)
  exact ⟨row, h1, h2, h3, h8 _ rfl,
    h9 ⟨0, 200, 4000, by decide, rfl, rfl, by decide, rfl⟩⟩

/-! ## Claim C4 -/

theorem upload_video_eq {req : UploadReq} {sf : String → String} {cap : CapEnv}
    {ts : String} {catVal uid : Int} (hf : req.hasFileField = true) :
    upload_video req sf cap ts catVal uid =
      (if req.fileName ≠ "" ∧ allowed_file req.fileName = true
          ∧ optTruthy req.categoryField = true then
        some { title := pyOrStr (pyStrip (req.titleField.getD "Untitled Video"))
                 (ts ++ "_" ++ sf req.fileName),
               thumbnail_path := (generate_video_thumbnail cap ts).getD "",
               video_path := some (ts ++ "_" ++ sf req.fileName),
               youtube_url := none, is_youtube := false,
               category_id := catVal, user_id := uid }
      else none) := by
  unfold upload_video
  rw [hf]
  rfl

/-- C4: every row committed by `add_youtube` has `is_youtube = true`, a
truthy (nonempty) `youtube_url` and an absent `video_path`; every row
committed by `upload_video` has `is_youtube = false`, a truthy
`video_path` and an absent `youtube_url` — exactly one of the two is
populated, governed by `is_youtube`. -/
theorem spec_C4 :
    (∀ (url cat : Option String) (catVal uid : Int) (tEnv : HttpOut)
        (env : Nat → Attempt) (ts : String) (row : VideoRow),
        add_youtube url cat catVal uid tEnv env ts = some row →
        row.is_youtube = true ∧ optTruthy row.youtube_url = true
          ∧ row.video_path = none ∧ optTruthy row.video_path = false)
    ∧ (∀ (req : UploadReq) (sf : String → String) (cap : CapEnv) (ts : String)
        (catVal uid : Int) (row : VideoRow),
        upload_video req sf cap ts catVal uid = some row →
        row.is_youtube = false ∧ optTruthy row.video_path = true
          ∧ row.youtube_url = none ∧ optTruthy row.youtube_url = false) := by
  constructor
  · intro url cat catVal uid tEnv env ts row h
    cases url with
    | none => exact Option.noConfusion h
    | some u =>
      cases cat with
      | none => exact Option.noConfusion h
      | some c =>
        simp only [add_youtube] at h
        split at h
        · next hcond =>
          split at h
          · injection h with h
            subst h
            refine ⟨rfl, ?_, rfl, rfl⟩
            simp [optTruthy, beq_eq_false_iff_ne.mpr hcond.1]
          · exact Option.noConfusion h
        · exact Option.noConfusion h
  · intro req sf cap ts catVal uid row h
    cases hff : req.hasFileField with
    | false =>
      unfold upload_video at h
      rw [hff] at h
      exact Option.noConfusion h
    | true =>
      rw [upload_video_eq hff] at h
      split at h
      · injection h with h
        subst h
        refine ⟨rfl, ?_, rfl, rfl⟩
        have hne : (ts ++ "_" ++ sf req.fileName) ≠ "" :=
          str_app_ne_left _ _ (str_app_ne_right _ _ (by decide))
        simp [optTruthy, beq_eq_false_iff_ne.mpr hne]
      · exact Option.noConfusion h

/-- Witness for C4: one concrete YouTube row and one concrete upload row. -/
theorem spec_C4_witness :
    (({ title := "YouTube Video", thumbnail_path := "yt_dQw4w9WgXcQ_20240101000000.jpg",
        video_path := none, youtube_url := some "https://youtu.be/dQw4w9WgXcQ",
        is_youtube := true, category_id := 1, user_id := 1 } : VideoRow).is_youtube = true
      ∧ optTruthy (some "https://youtu.be/dQw4w9WgXcQ") = true)
    ∧ (({ title := "My Movie", thumbnail_path := "video_20240101000000.jpg",
          video_path := some "20240101000000_movie.MP4", youtube_url := none,
          is_youtube := false, category_id := 3, user_id := 7 } : VideoRow).is_youtube = false
      ∧ optTruthy (some "20240101000000_movie.MP4") = true) := by
  have h1 := spec_C4.1 (some "https://youtu.be/dQw4w9WgXcQ") (some "1") 1 1 HttpOut.exn
    envAllOk "20240101000000"
    { title := "YouTube Video", thumbnail_path := "yt_dQw4w9WgXcQ_20240101000000.jpg",
      video_path := none, youtube_url := some "https://youtu.be/dQw4w9WgXcQ",
      is_youtube := true, category_id := 1, user_id := 1 } (by decide)
  have h2 := spec_C4.2 reqW (fun s => s) capW "20240101000000" 3 7
    { title := "My Movie", thumbnail_path := "video_20240101000000.jpg",
      video_path := some "20240101000000_movie.MP4", youtube_url := none,
      is_youtube := false, category_id := 3, user_id := 7 } (by rfl)
  exact ⟨⟨h1.1, h1.2.1⟩, ⟨h2.1, h2.2.1⟩⟩

/-! ## Claim C5 -/

theorem allowed_file_iff {f : String} :
    allowed_file f = true ↔
      ∃ a b, f.toList = a ++ '.' :: b ∧ '.' ∉ b ∧ lowerStr b ∈ allowedExts := by
  unfold allowed_file
  rw [Bool.and_eq_true]
  constructor
  · rintro ⟨h1, h2⟩
    have hdot : '.' ∈ f.toList := List.mem_of_elem_eq_true h1
    obtain ⟨a, ha, hnin⟩ := extChars_split hdot
    exact ⟨a, extChars f.toList, ha, hnin, List.mem_of_elem_eq_true h2⟩
  · rintro ⟨a, b, hab, hnb, hmem⟩
    have hdot : '.' ∈ f.toList := by
      rw [hab]
      exact List.mem_append_right _ (List.mem_cons_self _ _)
    have hex : extChars f.toList = b := by
      rw [hab]
      exact extChars_of_split hnb
    constructor
    · exact List.elem_eq_true_of_mem hdot
    · rw [hex]
      exact List.elem_eq_true_of_mem hmem

/-- C5: given a present nonempty file and a truthy category id, an upload
creates a Video row exactly when the filename has a dot and the
lowercased extension after the last dot is one of mp4, avi, mov, mkv,
webm, flv; with any other extension, or no dot at all, no row is
created. -/
theorem spec_C5 (req : UploadReq) (sf : String → String) (cap : CapEnv)
    (ts : String) (catVal uid : Int)
    (hf : req.hasFileField = true) (hn : req.fileName ≠ "")
    (hcat : optTruthy req.categoryField = true) :
    ((∃ row, upload_video req sf cap ts catVal uid = some row) ↔
      (∃ a b, req.fileName.toList = a ++ '.' :: b ∧ '.' ∉ b ∧
        lowerStr b ∈ allowedExts))
    ∧ (allowed_file req.fileName = false →
        upload_video req sf cap ts catVal uid = none) := by
  constructor
  · rw [← allowed_file_iff, upload_video_eq hf]
    by_cases hal : allowed_file req.fileName = true
    · rw [if_pos ⟨hn, hal, hcat⟩]
      simp [hal]
    · rw [if_neg (fun hcond => hal hcond.2.1)]
      simp [hal]
  · intro hfalse
    rw [upload_video_eq hf,
        if_neg (fun hcond => by rw [hfalse] at hcond; exact Bool.noConfusion hcond.2.1)]

/-- Witness for C5: the uppercase extension mp4 file is accepted; a
filename without a dot is rejected. -/
theorem spec_C5_witness :
    (∃ row, upload_video reqW (fun s => s) capW "20240101000000" 3 7 = some row)
    ∧ upload_video ⟨true, "movie", some "3", none⟩ (fun s => s) capW
        "20240101000000" 3 7 = none := by
  constructor
  · exact (spec_C5 reqW (fun s => s) capW "20240101000000" 3 7 rfl (by decide)
      rfl).1.mpr ⟨"movie".toList, "MP4".toList, by decide, by decide, by decide⟩
  · exact (spec_C5 ⟨true, "movie", some "3", none⟩ (fun s => s) capW
      "20240101000000" 3 7 rfl (by decide) rfl).2 (by decide)

/-! ## Claim C6 -/

/-- C6: the frame rate falls back to 25 exactly when the raw FPS property
is 0.0 (unavailable); the selected frame index is the minimum of one
second's worth of frames (int(fps * 1)) and the midpoint (total_frames
// 2 when the total frame count is positive, 0 otherwise); hence it
equals int(fps) when that is at most the midpoint and is clamped to the
midpoint otherwise. -/
theorem spec_C6 (cap : CapEnv) :
    (cap.fpsRaw = 0 → fpsUsed cap = 25)
    ∧ (cap.fpsRaw ≠ 0 → fpsUsed cap = cap.fpsRaw)
    ∧ frame_no cap = min (pyInt (fpsUsed cap))
        (if 0 < total_frames cap then (total_frames cap).fdiv 2 else 0)
    ∧ (total_frames cap ≤ 0 → frame_no cap = min (pyInt (fpsUsed cap)) 0)
    ∧ (0 < total_frames cap → pyInt (fpsUsed cap) ≤ (total_frames cap).fdiv 2 →
        frame_no cap = pyInt (fpsUsed cap))
    ∧ (0 < total_frames cap → (total_frames cap).fdiv 2 ≤ pyInt (fpsUsed cap) →
        frame_no cap = (total_frames cap).fdiv 2) := by
  refine ⟨?_, ?_, ?_, ?_, ?_, ?_⟩
  · intro h
    unfold fpsUsed pyOrQ
    rw [if_pos h]
  · intro h
    unfold fpsUsed pyOrQ
    rw [if_neg h]
  · unfold frame_no
    rw [mul_one]
  · intro h
    unfold frame_no
    rw [mul_one, if_neg (not_lt.mpr h)]
  · intro h1 h2
    unfold frame_no
    rw [mul_one, if_pos h1]
    exact min_eq_left h2
  · intro h1 h2
    unfold frame_no
    rw [mul_one, if_pos h1]
    exact min_eq_right h2

/-- Witness for C6: a capture with unavailable FPS (0.0) and 100 frames
selects frame 25 (one second at the 25 fps fallback, before the midpoint
50). -/
theorem spec_C6_witness :
    fpsUsed capW = 25 ∧ total_frames capW = 100 ∧ frame_no capW = 25 := by
  have h := spec_C6 capW
  have h1 : fpsUsed capW = 25 := h.1 rfl
  have h2 : total_frames capW = 100 := rfl
  refine ⟨h1, h2, ?_⟩
  have h3 := h.2.2.2.2.1 (by rw [h2]; decide) (by rw [h1, h2]; decide)
  rw [h3, h1]
  decide

/-! ## Claim C7 -/

/-- C7 counterexample: on an https host, the target
http://example.com/evil resolves to scheme http — different from the
request scheme — yet the login redirect honors it; so the redirect check
is not a both-scheme-and-host same-origin check. -/
theorem spec_C7_cex :
    login_redirect "https://example.com/" (some "http://example.com/evil")
      = RedirectTarget.toNext "http://example.com/evil"
    ∧ (urljoinParts "https://example.com/" "http://example.com/evil").scheme
        ≠ (urlsplit "https://example.com/").scheme
    ∧ (urljoinParts "https://example.com/" "http://example.com/evil").netloc
        = (urlsplit "https://example.com/").netloc := by
  refine ⟨?_, ?_, ?_⟩ <;> decide

/-- C7 (amended): a caller-supplied next target is honored exactly when it
is nonempty, its resolved scheme is http or https (not necessarily the
request scheme), and its resolved netloc equals that of the request host
URL; in every other case the login redirect falls back to the index
page. -/
theorem spec_C7 (host : String) (nxt : Option String) :
    (∀ n, login_redirect host nxt = RedirectTarget.toNext n ↔
      (nxt = some n ∧ n ≠ ""
        ∧ ((urljoinParts host n).scheme = "http" ∨ (urljoinParts host n).scheme = "https")
        ∧ (urljoinParts host n).netloc = (urlsplit host).netloc))
    ∧ (nxt = none → login_redirect host nxt = RedirectTarget.toIndex)
    ∧ (∀ n, nxt = some n → is_safe_url host n = false →
        login_redirect host nxt = RedirectTarget.toIndex) := by
  have hsafe : ∀ n : String, is_safe_url host n = true ↔
      (n ≠ ""
        ∧ ((urljoinParts host n).scheme = "http" ∨ (urljoinParts host n).scheme = "https")
        ∧ (urljoinParts host n).netloc = (urlsplit host).netloc) := by
    intro n
    unfold is_safe_url
    by_cases hn : n = ""
    · rw [if_pos hn]
      constructor
      · intro h
        exact Bool.noConfusion h
      · rintro ⟨hne, -⟩
        exact absurd hn hne
    · rw [if_neg hn]
      simp only [Bool.and_eq_true, Bool.or_eq_true, beq_iff_eq]
      constructor
      · rintro ⟨hs, hnl⟩
        exact ⟨hn, hs, hnl.symm⟩
      · rintro ⟨-, hs, hnl⟩
        exact ⟨hs, hnl.symm⟩
  refine ⟨?_, ?_, ?_⟩
  · intro n
    cases nxt with
    | none =>
      simp only [login_redirect]
      constructor
      · intro h
        exact RedirectTarget.noConfusion h
      · rintro ⟨h, -⟩
        exact Option.noConfusion h
    | some m =>
      simp only [login_redirect]
      by_cases hcond : m ≠ "" ∧ is_safe_url host m = true
      · rw [if_pos hcond]
        constructor
        · intro h
          injection h with h
          subst h
          exact ⟨rfl, (hsafe m).mp hcond.2⟩
        · rintro ⟨hm, -⟩
          injection hm with hm
          subst hm
          rfl
      · rw [if_neg hcond]
        constructor
        · intro h
          exact RedirectTarget.noConfusion h
        · rintro ⟨hm, hne, hsch, hnl⟩
          injection hm with hm
          subst hm
          exact absurd ⟨hne, (hsafe m).mpr ⟨hne, hsch, hnl⟩⟩ hcond
  · intro h
    subst h
    rfl
  · intro n h hfalse
    subst h
    simp only [login_redirect]
    rw [if_neg]
    rintro ⟨-, hcontra⟩
    rw [hfalse] at hcontra
    exact Bool.noConfusion hcontra

/-- Witness for C7: a relative path on the same host is honored; an
absolute URL on a foreign host falls back to the index page. -/
theorem spec_C7_witness :
    login_redirect "http://h/" (some "/next") = RedirectTarget.toNext "/next"
    ∧ login_redirect "http://h/" (some "https://evil.com/x") = RedirectTarget.toIndex := by
  constructor
  · exact ((spec_C7 "http://h/" (some "/next")).1 "/next").mpr
      ⟨rfl, by decide, by decide, by decide⟩
  · exact (spec_C7 "http://h/" (some "https://evil.com/x")).2.2 "https://evil.com/x"
      rfl (by decide)

/-! ## Claim C8 -/

theorem videoKeyMatch_iff {I U : Int} {w : VideoRec} :
    videoKeyMatch I U w = true ↔ (w.vid = I ∧ w.uid = U) := by
  unfold videoKeyMatch
  simp

theorem delete_video_of_none {st : AppState} {I U : Int} {fT fV : Bool}
    (h : findVideo st I U = none) :
    delete_video st I U fT fV = (DeleteOutcome.notFound, st) := by
  unfold delete_video
  simp only [h]

/-- C8: deleting a video removes its database row — afterwards no row with
that id and owner is found and a second delete of the same id yields
not-found with no state change; the thumbnail file and, for non-YouTube
videos, the source file are removed best-effort, with removal failures
swallowed (the outcome is ok and the row is deleted for every value of the
failure oracles); a delete of an id with no row owned by the requesting
user yields not-found with no state change. -/
theorem spec_C8 (st : AppState) (videoId userId : Int) (failT failV : Bool) :
    (findVideo st videoId userId = none →
      delete_video st videoId userId failT failV = (DeleteOutcome.notFound, st))
    ∧ ((∀ w ∈ st.videos, ¬(w.vid = videoId ∧ w.uid = userId)) →
      delete_video st videoId userId failT failV = (DeleteOutcome.notFound, st))
    ∧ (∀ v, findVideo st videoId userId = some v →
        (st.videos.map VideoRec.vid).Nodup →
        (delete_video st videoId userId failT failV).1 = DeleteOutcome.ok
        ∧ findVideo (delete_video st videoId userId failT failV).2 videoId userId = none
        ∧ (∀ fT fV, delete_video (delete_video st videoId userId failT failV).2
            videoId userId fT fV
            = (DeleteOutcome.notFound, (delete_video st videoId userId failT failV).2))
        ∧ (failT = false → v.thumbnail_path ≠ "" → v.thumbnail_path ∈ st.thumbFiles →
            st.thumbFiles.Nodup →
            v.thumbnail_path ∉ (delete_video st videoId userId failT failV).2.thumbFiles)
        ∧ (failT = true → (delete_video st videoId userId failT failV).2.thumbFiles
            = st.thumbFiles)
        ∧ (v.is_youtube = false → failV = false → ∀ p, v.video_path = some p → p ≠ "" →
            p ∈ st.uploadFiles → st.uploadFiles.Nodup →
            p ∉ (delete_video st videoId userId failT failV).2.uploadFiles)
        ∧ (v.is_youtube = true → (delete_video st videoId userId failT failV).2.uploadFiles
            = st.uploadFiles)) := by
  refine ⟨?_, ?_, ?_⟩
  · exact fun h => delete_video_of_none h
  · intro hall
    have hnone : findVideo st videoId userId = none := by
      unfold findVideo
      rw [List.find?_eq_none]
      intro w hw hkm
      exact hall w hw (videoKeyMatch_iff.mp hkm)
    exact delete_video_of_none hnone
  · intro v hfind hnd
    have heq : delete_video st videoId userId failT failV
        = (DeleteOutcome.ok,
           { videos := st.videos.eraseP (videoKeyMatch videoId userId),
             thumbFiles := if v.thumbnail_path ≠ "" then
               tryRemove st.thumbFiles v.thumbnail_path failT else st.thumbFiles,
             uploadFiles := if (!v.is_youtube) && optTruthy v.video_path then
               tryRemove st.uploadFiles (v.video_path.getD "") failV
             else st.uploadFiles }) := by
      unfold delete_video
      simp only [hfind]
    have hgone : findVideo
        (delete_video st videoId userId failT failV).2 videoId userId = none := by
      rw [heq]
      exact find?_eraseP_none hnd
    refine ⟨by rw [heq], hgone, ?_, ?_, ?_, ?_, ?_⟩
    · intro fT fV
      exact delete_video_of_none hgone
    · intro hfT hne hmem hnodup
      rw [heq]
      show v.thumbnail_path ∉
        (if v.thumbnail_path ≠ "" then tryRemove st.thumbFiles v.thumbnail_path failT
         else st.thumbFiles)
      rw [if_pos hne]
      unfold tryRemove
      rw [if_pos hmem, hfT, if_neg (by simp)]
      intro hmem2
      exact absurd rfl ((hnodup.mem_erase_iff).mp hmem2).1
    · intro hfT
      subst hfT
      rw [heq]
      show (if v.thumbnail_path ≠ "" then tryRemove st.thumbFiles v.thumbnail_path true
            else st.thumbFiles) = st.thumbFiles
      by_cases hne : v.thumbnail_path ≠ ""
      · rw [if_pos hne]
        unfold tryRemove
        by_cases hmem : v.thumbnail_path ∈ st.thumbFiles <;> simp [hmem]
      · rw [if_neg hne]
    · intro hyt hfV p hp hpne hmem hnodup
      rw [heq]
      show p ∉
        (if (!v.is_youtube) && optTruthy v.video_path then
          tryRemove st.uploadFiles (v.video_path.getD "") failV
         else st.uploadFiles)
      rw [if_pos (by simp [hyt, hp, optTruthy, beq_eq_false_iff_ne.mpr hpne]),
          hp, Option.getD_some]
      unfold tryRemove
      rw [if_pos hmem, hfV, if_neg (by simp)]
      intro hmem2
      exact absurd rfl ((hnodup.mem_erase_iff).mp hmem2).1
    · intro hyt
      rw [heq]
      show (if (!v.is_youtube) && optTruthy v.video_path then
              tryRemove st.uploadFiles (v.video_path.getD "") failV
            else st.uploadFiles) = st.uploadFiles
      rw [if_neg (by simp [hyt])]

/-- Witness for C8: a one-row state; the first delete succeeds and removes
the row and the thumbnail file, the second delete of the same id yields
not-found with no state change, and a delete of an unknown id yields
not-found. -/
theorem spec_C8_witness :
    (delete_video stW 1 7 false false).1 = DeleteOutcome.ok
    ∧ findVideo (delete_video stW 1 7 false false).2 1 7 = none
    ∧ delete_video (delete_video stW 1 7 false false).2 1 7 false false
        = (DeleteOutcome.notFound, (delete_video stW 1 7 false false).2)
    ∧ "t.jpg" ∉ (delete_video stW 1 7 false false).2.thumbFiles
    ∧ delete_video stW 2 7 false false = (DeleteOutcome.notFound, stW) := by
  have h := (spec_C8 stW 1 7 false false).2.2 ⟨1, 7, false, "t.jpg", some "v.mp4"⟩
    rfl (by decide)
  refine ⟨h.1, h.2.1, h.2.2.1 false false, ?_, ?_⟩
  · exact h.2.2.2.1 rfl (by decide) (by decide) (by decide)
  · exact (spec_C8 stW 2 7 false false).1 rfl

/-! ## Claim C9 -/

/-- C9 counterexample: an unauthenticated requester of an admin route is
refused, but receives the login redirect of the outer login_required
wrapper, not a hard 403. -/
theorem spec_C9_cex :
    adminRoute (fun _ => (0 : Nat)) ⟨false, "alice"⟩ = RouteOutcome.loginRedirect
    ∧ adminRoute (fun _ => (0 : Nat)) ⟨false, "alice"⟩ ≠ RouteOutcome.httpError 403
    ∧ is_admin ⟨false, "alice"⟩ = false := by
  refine ⟨rfl, ?_, rfl⟩
  decide

/-- C9 (amended): access to an admin route is granted (the handler body
runs) iff the requester is authenticated with the literal username admin;
an authenticated non-admin requester receives a hard 403; an
unauthenticated requester receives the login redirect rather than a 403;
in both refusal cases the handler body is never executed (the outcome does
not depend on the handler). -/
theorem spec_C9 {α : Type} (f g : Unit → α) (u : SessionUser) :
    (adminRoute f u = RouteOutcome.ok (f ()) ↔ is_admin u = true)
    ∧ (is_admin u = true ↔ u.is_authenticated = true ∧ u.username = "admin")
    ∧ (u.is_authenticated = true → is_admin u = false →
        adminRoute f u = RouteOutcome.httpError 403)
    ∧ (u.is_authenticated = false → adminRoute f u = RouteOutcome.loginRedirect)
    ∧ (is_admin u = false → adminRoute f u = adminRoute g u) := by
  obtain ⟨auth, uname⟩ := u
  cases auth with
  | false =>
    refine ⟨?_, ?_, ?_, ?_, ?_⟩
    · constructor
      · intro h
        exact RouteOutcome.noConfusion h
      · intro ha
        exact Bool.noConfusion ha
    · unfold is_admin
      simp
    · intro hauth
      exact Bool.noConfusion hauth
    · intro _
      rfl
    · intro _
      rfl
  | true =>
    by_cases hadm : uname = "admin"
    · subst hadm
      refine ⟨⟨fun _ => rfl, fun _ => rfl⟩, ?_, ?_, ?_, ?_⟩
      · unfold is_admin
        simp
      · intro _ hna
        exact Bool.noConfusion hna
      · intro h
        exact Bool.noConfusion h
      · intro ha
        exact Bool.noConfusion ha
    · have hf : is_admin ⟨true, uname⟩ = false := by
        simp [is_admin, hadm]
      have hroute : ∀ h : Unit → α,
          adminRoute h ⟨true, uname⟩ = RouteOutcome.httpError 403 := by
        intro h
        unfold adminRoute login_required admin_required
        rw [if_pos rfl]
        simp [hf]
      refine ⟨?_, ?_, ?_, ?_, ?_⟩
      · rw [hroute f]
        constructor
        · intro h
          exact RouteOutcome.noConfusion h
        · intro ha
          rw [hf] at ha
          exact Bool.noConfusion ha
      · simp [is_admin, hadm]
      · intro _ _
        exact hroute f
      · intro h
        exact Bool.noConfusion h
      · intro _
        rw [hroute f, hroute g]

/-- Witness for C9: the admin account is granted access, and an
authenticated non-admin receives the 403. -/
theorem spec_C9_witness :
    adminRoute (fun _ => (7 : Nat)) ⟨true, "admin"⟩ = RouteOutcome.ok 7
    ∧ adminRoute (fun _ => (7 : Nat)) ⟨true, "bob"⟩ = RouteOutcome.httpError 403 := by
  constructor
  · exact ((spec_C9 (fun _ => (7 : Nat)) (fun _ => (7 : Nat)) ⟨true, "admin"⟩).1).mpr rfl
  · exact (spec_C9 (fun _ => (7 : Nat)) (fun _ => (7 : Nat)) ⟨true, "bob"⟩).2.2.1 rfl
      (by decide)

/-! ## Claim C10 -/

/-- C10 counterexample: when the oEmbed endpoint returns 200 with an empty
title and every thumbnail candidate fails, the helper returns an empty
title for a URL whose identifier was extracted (and nothing raised), and
add_youtube records no row — so the returned title is not never-empty,
and the no-record branch is reachable beyond extraction failure. -/
theorem spec_C10_cex :
    extract_video_id "https://youtu.be/dQw4w9WgXcQ" = some "dQw4w9WgXcQ"
    ∧ (extract_youtube_thumbnail (HttpOut.resp 200 (some "")) envAllFail
        "20240101000000" "https://youtu.be/dQw4w9WgXcQ") = (none, some "")
    ∧ add_youtube (some "https://youtu.be/dQw4w9WgXcQ") (some "1") 1 1
        (HttpOut.resp 200 (some "")) envAllFail "20240101000000" = none := by
  refine ⟨?_, ?_, ?_⟩ <;> decide

/-- C10 (amended): for every URL from which an identifier is extracted,
the helper returns a present (never None) title, namely the
get_youtube_title result; that title is the nonempty fallback
"YouTube Video" whenever the lookup fails (exception or non-200), and can
be empty only when the endpoint returned 200 with an empty title field;
whenever the returned title is nonempty, add_youtube (with a truthy
category id) records a row — so the no-record branch is reachable only
when extraction fails, or when the lookup returned 200 with an empty
title and every thumbnail candidate failed. -/
theorem spec_C10 (u c : String) (catVal uid : Int) (tEnv : HttpOut)
    (env : Nat → Attempt) (ts vid : String)
    (hx : extract_video_id u = some vid) (hc : c ≠ "") :
    (extract_youtube_thumbnail tEnv env ts u).2 = some (get_youtube_title tEnv)
    ∧ (get_youtube_title tEnv = "" → tEnv = HttpOut.resp 200 (some ""))
    ∧ (tEnv = HttpOut.exn → get_youtube_title tEnv = "YouTube Video")
    ∧ (∀ st jt, tEnv = HttpOut.resp st jt → st ≠ 200 →
        get_youtube_title tEnv = "YouTube Video")
    ∧ (get_youtube_title tEnv ≠ "" →
        add_youtube (some u) (some c) catVal uid tEnv env ts ≠ none) := by
  have hu : u ≠ "" := by
    intro he
    rw [he] at hx
    rw [show extract_video_id "" = none from rfl] at hx
    exact Option.noConfusion hx
  refine ⟨?_, ?_, ?_, ?_, ?_⟩
  · cases hl : thumbLoop env vid with
    | some k => rw [extract_thumb_eq_some hx hl]
    | none => rw [extract_thumb_eq_none hx hl]
  · intro h
    cases tEnv with
    | exn => exact absurd h (by decide)
    | resp st jt =>
      by_cases h200 : st = 200
      · subst h200
        cases jt with
        | none => exact absurd h (by decide)
        | some t =>
          simp [get_youtube_title] at h
          rw [h]
      · rw [show get_youtube_title (HttpOut.resp st jt) = "YouTube Video" from by
          simp [get_youtube_title, h200]] at h
        exact absurd h (by decide)
  · intro h
    rw [h]
    rfl
  · intro st jt h hne
    rw [h]
    simp [get_youtube_title, hne]
  · intro hne
    rw [add_youtube_eq hu hc]
    cases hl : thumbLoop env vid with
    | some k =>
      rw [extract_thumb_eq_some hx hl]
      rw [if_pos (by
        simp [optTruthy, beq_eq_false_iff_ne.mpr
          (str_app_ne_right ("yt_" ++ vid ++ "_" ++ ts) ".jpg" (by decide))])]
      simp
    | none =>
      rw [extract_thumb_eq_none hx hl]
      rw [if_pos (by simp [optTruthy, beq_eq_false_iff_ne.mpr hne])]
      simp

/-- Witness for C10: with the lookup failing outright and every candidate
failing, the helper still returns the fallback title and a row is
recorded. -/
theorem spec_C10_witness :
    (extract_youtube_thumbnail HttpOut.exn envAllFail "20240101000000"
      "https://youtu.be/dQw4w9WgXcQ").2 = some "YouTube Video"
    ∧ add_youtube (some "https://youtu.be/dQw4w9WgXcQ") (some "1") 1 1 HttpOut.exn
        envAllFail "20240101000000" ≠ none := by
  have h := spec_C10 "https://youtu.be/dQw4w9WgXcQ" "1" 1 1 HttpOut.exn envAllFail
    "20240101000000" "dQw4w9WgXcQ" (by decide) (by decide)
  exact ⟨h.1, h.2.2.2.2 (by decide)⟩

end VidOrg
